import Mathlib

/-! # B12 sample server (`src/samples/1.c`): connection table, command parser, worker

A shallow embedding of the C program `src/samples/1.c`.

* The connection table `server_state` is a value of `ServerState`; the code that
  runs between `pthread_mutex_lock` and `pthread_mutex_unlock` in `start_server`
  is the function `accept_step`, the code after the receive loop of
  `handle_client` is `worker_teardown`.
* The threads together are a `Server`: the table and the workers created so far.
  A worker leaves its loop in two steps, lines 110-111 (`teardown_release`, no
  lock) and lines 113-115 (`teardown_decrement`, under the lock), and steps of
  the accept thread and of other workers may come between them (`move`).
* C `int` values are modelled by `Int`.  Signed overflow is undefined in C; the
  counters of this program move by one per step and stay far from the limits of
  `int`, so `++` and `--` are `+ 1` and `- 1`.
* C strings are lists of characters; a character array is the list of the
  characters stored in it and `cstr` reads the string that starts it.
-/

namespace B12

/-! ## Data model (lines 11-27) -/

/-- `#define MAX_CONNECTIONS 10` -/
def MAX_CONNECTIONS : Nat := 10

/-- `#define BUFFER_SIZE 2048` -/
def BUFFER_SIZE : Nat := 2048

/-- The part of `struct sockaddr_in` the program reads or copies: family, port and
the four octets of `sin_addr` in the order they are stored. -/
structure sockaddr_in where
  sin_family : Nat
  sin_port : Nat
  sin_addr : Nat × Nat × Nat × Nat
deriving DecidableEq, Repr

/-- `typedef struct { int socket_fd; struct sockaddr_in address; char username[32];
int active; } ClientConnection;` -/
structure ClientConnection where
  socket_fd : Int
  address : sockaddr_in
  username : List Char
  active : Int
deriving DecidableEq, Repr

/-- `typedef struct { ClientConnection clients[MAX_CONNECTIONS]; int client_count;
pthread_mutex_t lock; } ServerState;`  The array is the function from an index to
the slot stored there; the slots are the indices below `MAX_CONNECTIONS`. -/
structure ServerState where
  clients : Nat → ClientConnection
  client_count : Int

/-- A `ClientConnection` whose bytes are all zero. -/
def zero_connection : ClientConnection :=
  { socket_fd := 0, address := ⟨0, 0, (0, 0, 0, 0)⟩, username := [], active := 0 }

/-- `initialize_server`: `memset(&server_state, 0, sizeof(ServerState))`. -/
def initialize_server : ServerState :=
  { clients := fun _ => zero_connection, client_count := 0 }

/-! ## The accept loop's allocation step (lines 158-185) -/

/-- Text printed by `%d`. -/
def decimal (n : Int) : List Char :=
  if n < 0 then '-' :: Nat.toDigits 10 n.natAbs else Nat.toDigits 10 n.toNat

/-- The loop of lines 160-166, entered at index `i` with `n` iterations left
(`n = MAX_CONNECTIONS - i`): the value of `client_id` when the loop ends. -/
def scan_from (clients : Nat → ClientConnection) (i : Nat) : Nat → Int
  | 0 => -1
  | n + 1 => if (clients i).active = 0 then (i : Int) else scan_from clients (i + 1) n

/-- `int client_id = -1; for(int i = 0; i < MAX_CONNECTIONS; i++) ...` -/
def find_free_slot (clients : Nat → ClientConnection) : Int :=
  scan_from clients 0 MAX_CONNECTIONS

/-- What one pass through lines 158-185 does: the table afterwards, the argument
handed to the `handle_client` thread it created (if any) and the descriptor it
closed (if any). -/
structure AcceptOutcome where
  state : ServerState
  spawned : Option Int
  closed : Option Int

/-- Lines 158-185 of `start_server`, for an accepted descriptor `client_fd` and
peer address `client_addr`. -/
def accept_step (s : ServerState) (client_fd : Int) (client_addr : sockaddr_in) :
    AcceptOutcome :=
  let client_id := find_free_slot s.clients
  if client_id ≠ -1 then
    let slot : ClientConnection :=
      { socket_fd := client_fd
        address := client_addr
        active := 1
        username := ("client_".toList ++ decimal client_id).take 31 }
    { state :=
        { clients := Function.update s.clients client_id.toNat slot
          client_count := s.client_count + 1 }
      spawned := some client_id
      closed := none }
  else
    { state := s, spawned := none, closed := some client_fd }

/-! ## Worker teardown (lines 110-115) -/

/-- Lines 110-115 of `handle_client` run by the worker of slot `client_id`:
`close(client->socket_fd); client->active = 0; client_count--`.  The result is
the table afterwards and the descriptor closed. -/
def worker_teardown (s : ServerState) (client_id : Nat) : ServerState × Int :=
  let client := s.clients client_id
  ({ clients := Function.update s.clients client_id { client with active := 0 }
     client_count := s.client_count - 1 },
   client.socket_fd)

/-- Number of slots whose `active` field is 1. -/
def active_slots (s : ServerState) : Nat :=
  (List.range MAX_CONNECTIONS).countP (fun i => decide ((s.clients i).active = 1))

/-- The allocation steps for a list of accepted connections, in order: the table
afterwards and the worker argument of each step. -/
def accept_all (s : ServerState) : List (Int × sockaddr_in) → ServerState × List (Option Int)
  | [] => (s, [])
  | (fd, addr) :: rest =>
    let o := accept_step s fd addr
    let r := accept_all o.state rest
    (r.1, o.spawned :: r.2)

/-! ## C strings and the library calls of `process_command` -/

/-- The terminator of a C string. -/
def NUL : Char := Char.ofNat 0

/-- The string that starts a character array: the characters before the first
NUL (or all of them when the array holds none; the receive buffer is followed by
zero bytes: `handle_client` clears it before each `recv` of at most
`BUFFER_SIZE - 1` bytes). -/
def cstr : List Char → List Char
  | [] => []
  | c :: cs => if c = NUL then [] else c :: cstr cs

/-- `isspace` in the C locale: space, `\t`, `\n`, `\v`, `\f`, `\r`. -/
def isspace (c : Char) : Bool :=
  c.toNat = 32 || (9 ≤ c.toNat && c.toNat ≤ 13)

/-- `strcmp(a, b) == 0`. -/
def strcmp_zero (a b : List Char) : Bool :=
  cstr a == cstr b

/-- `strchr(s, c)` for `c` other than NUL: the offset of the first `c` in the
string at `s`, or `none` for `NULL`. -/
def strchr : List Char → Char → Option Nat
  | [], _ => none
  | x :: xs, c =>
    if x = c then some 0
    else if x = NUL then none
    else (strchr xs c).map (fun k => k + 1)

/-- White space skipped by a `%s` conversion and by a blank in a format. -/
def skip_space : List Char → List Char
  | [] => []
  | c :: cs => if isspace c then skip_space cs else c :: cs

/-- The characters a `%Ns` conversion stores once the leading white space is
gone (at most `N`, up to the next white-space character) and the unread input. -/
def scan_token : Nat → List Char → List Char × List Char
  | 0, input => ([], input)
  | _ + 1, [] => ([], [])
  | w + 1, c :: cs =>
    if isspace c then ([], c :: cs)
    else
      let r := scan_token w cs
      (c :: r.1, r.2)

/-- A `%Ns` conversion: `none` when the input ends before a character of the
token is found (input failure, nothing is stored). -/
def conv_s (width : Nat) (input : List Char) : Option (List Char × List Char) :=
  match skip_space input with
  | [] => none
  | c :: cs => some (scan_token width (c :: cs))

/-- `sscanf(buffer, "%255s %511s", cmd, args)`: the contents of `cmd` and `args`
afterwards and the return value.  `cmd` and `args` are what the arrays held
before the call; a conversion that fails leaves its array as it was. -/
def sscanf_cmd_args (buffer cmd args : List Char) : List Char × List Char × Int :=
  match conv_s 255 (cstr buffer) with
  | none => (cmd, args, -1)
  | some (c, rest) =>
    match conv_s 511 (skip_space rest) with
    | none => (c, args, 1)
    | some (a, _) => (c, a, 2)

/-- The characters one `fgets` call stores when it may store `n` of them: up to
and including the first newline. -/
def fgets_line : Nat → List Char → List Char
  | 0, _ => []
  | _ + 1, [] => []
  | n + 1, c :: cs => if c = '\n' then [c] else c :: fgets_line n cs

/-- `fgets(data, size, stream)`: `none` for `NULL` at end of file, else the
characters stored and the unread rest of the stream. -/
def fgets (size : Nat) (stream : List Char) : Option (List Char × List Char) :=
  match stream with
  | [] => none
  | _ :: _ =>
    let line := fgets_line (size - 1) stream
    some (line, stream.drop line.length)

/-- `while(fgets(data, size, f)) printf(label "%s", data);` with `fuel` bounding
the number of iterations: the texts printed. -/
def print_loop (label : List Char) (size : Nat) : Nat → List Char → List (List Char)
  | 0, _ => []
  | fuel + 1, stream =>
    match fgets size stream with
    | none => []
    | some (line, rest) => (label ++ cstr line) :: print_loop label size fuel rest

/-- The print loop run to the end of the stream (each `fgets` with `size` at
least 2 takes a character, so the length of the stream bounds the iterations). -/
def print_lines (label : List Char) (size : Nat) (stream : List Char) : List (List Char) :=
  print_loop label size stream.length stream

/-- Calls `process_command` makes that reach outside the process. -/
inductive Event where
  | fopen (path mode : List Char) (ok : Bool)
  | fwrite (path data : List Char)
  | fclose (path : List Char)
  | popen (command : List Char) (ok : Bool)
  | pclose (command : List Char)
  | printf (text : List Char)
deriving DecidableEq, Repr

/-- The operating system as `process_command` sees it: the content of each file
that `fopen(path, "r")` can open, whether `fopen(path, "w")` succeeds, and the
output of each command line that `popen` can start. -/
structure Env where
  files : List Char → Option (List Char)
  writable : List Char → Bool
  shell : List Char → Option (List Char)

/-- What a call of `process_command` leaves behind: its return value, the
caller's buffer, the strings in its scratch arrays (`path` and `command` exist in
one branch each), its calls in order and the files afterwards. -/
structure CommandResult where
  ret : Int
  buffer : List Char
  cmd : List Char
  args : List Char
  path : Option (List Char)
  command : Option (List Char)
  events : List Event
  files : List Char → Option (List Char)

/-- The function `process_command` (lines 34-83).  `cmd0` and `args0` are the
contents of the uninitialised arrays `cmd` and `args` when the call starts. -/
def process_command (env : Env) (cmd0 args0 buffer : List Char) : CommandResult :=
  let parsed := sscanf_cmd_args buffer cmd0 args0
  let cmd := parsed.1
  let args := parsed.2.1
  let quiet : CommandResult :=
    { ret := 0, buffer := buffer, cmd := cmd, args := args, path := none, command := none,
      events := [], files := env.files }
  if strcmp_zero cmd "GET".toList then
    let path := cstr args
    match env.files path with
    | some content =>
      { quiet with
        path := some path
        events := [Event.fopen path "r".toList true]
          ++ (print_lines "Sending: ".toList 1024 content).map Event.printf
          ++ [Event.fclose path] }
    | none => { quiet with path := some path, events := [Event.fopen path "r".toList false] }
  else if strcmp_zero cmd "PUT".toList then
    match strchr buffer ' ' with
    | none => quiet
    | some k =>
      let data := k + 1
      match strchr (buffer.drop data) ' ' with
      | none => quiet
      | some j =>
        let space := data + j
        let buffer1 := buffer.set space NUL
        let file_data := cstr (buffer1.drop (space + 1))
        let name := cstr (buffer1.drop data)
        if env.writable name then
          { quiet with
            buffer := buffer1
            events := [Event.fopen name "w".toList true, Event.fwrite name file_data,
              Event.fclose name]
            files := fun p => if p = name then some file_data else env.files p }
        else
          { quiet with buffer := buffer1, events := [Event.fopen name "w".toList false] }
  else if strcmp_zero cmd "EXEC".toList then
    let command := cstr args ++ " 2>&1".toList
    match env.shell command with
    | some output =>
      { quiet with
        command := some command
        events := [Event.popen command true]
          ++ (print_lines "Result: ".toList 1024 output).map Event.printf
          ++ [Event.pclose command] }
    | none => { quiet with command := some command, events := [Event.popen command false] }
  else quiet

/-! ## The worker (lines 85-118) -/

/-- `inet_ntoa`: the four octets in decimal, separated by dots. -/
def inet_ntoa (a : Nat × Nat × Nat × Nat) : List Char :=
  Nat.toDigits 10 (a.1 % 256) ++ '.' :: Nat.toDigits 10 (a.2.1 % 256)
    ++ '.' :: Nat.toDigits 10 (a.2.2.1 % 256) ++ '.' :: Nat.toDigits 10 (a.2.2.2 % 256)

/-- `snprintf(dst, size, ...)` for the expanded text: the string stored in `dst`
and the return value, the length of the whole text. -/
def snprintf (size : Nat) (text : List Char) : List Char × Int :=
  (text.take (size - 1), (text.length : Int))

/-- The text of `"Processed command from %s: %s"` for the string `peer` that
`inet_ntoa` returned and the array `buffer`. -/
def ack_format (peer buffer : List Char) : List Char :=
  "Processed command from ".toList ++ peer ++ ": ".toList ++ cstr buffer

/-- One pass through the body of the receive loop after a successful `recv`
(lines 100-107). -/
structure Reply where
  result : CommandResult
  response : List Char
  len : Int

/-- Lines 100-107 of `handle_client` for the bytes `record` that `recv` stored in
the zeroed buffer: `response` is the string in `response[256]`, `len` the byte
count passed to `send`. -/
def handle_record (env : Env) (client : ClientConnection) (cmd0 args0 record : List Char) :
    Reply :=
  let result := process_command env cmd0 args0 record
  let out := snprintf 256 (ack_format (inet_ntoa client.address.sin_addr) result.buffer)
  { result := result, response := out.1, len := out.2 }

/-- An environment in which no file can be opened and no command started. -/
def empty_env : Env :=
  { files := fun _ => none, writable := fun _ => false, shell := fun _ => none }

/-- A table with slots 0 and 2 in use and slot 1 free again: three allocations,
then the teardown of the worker of slot 1. -/
def sample_table : ServerState :=
  (worker_teardown (accept_all initialize_server
    [(3, ⟨2, 1, (10, 0, 0, 1)⟩), (4, ⟨2, 2, (10, 0, 0, 2)⟩), (5, ⟨2, 3, (10, 0, 0, 3)⟩)]).1 1).1

/-- Ten accepted connections, descriptors 3 to 12. -/
def ten_connections : List (Int × sockaddr_in) :=
  (List.range 10).map (fun (i : Nat) => ((i : Int) + 3, ⟨2, 4000 + i, (10, 0, 0, i)⟩))

/-- Every slot's `active` field is 0 or 1. -/
def binary_flags (s : ServerState) : Prop :=
  ∀ i, (s.clients i).active = 0 ∨ (s.clients i).active = 1

/-- An environment in which every `fopen(path, "w")` succeeds, no file can be
read and no command started. -/
def writable_env : Env :=
  { files := fun _ => none, writable := fun _ => true, shell := fun _ => none }

/-- A slot in use by the peer 10.0.0.1 on descriptor 3. -/
def sample_client : ClientConnection :=
  { socket_fd := 3, address := ⟨2, 1, (10, 0, 0, 1)⟩, username := "client_0".toList, active := 1 }

/-- An environment whose only readable file is `/etc/passwd`. -/
def passwd_env : Env :=
  { files := fun p => if p = "/etc/passwd".toList then some "root:x:0:0\n".toList else none
    writable := fun _ => false
    shell := fun _ => none }

/-! ## The accept thread and the worker threads together -/

/-- Lines 110-111 of `handle_client`, run by the worker of slot `client_id`
without the lock: `close(client->socket_fd); client->active = 0;`.  The result is
the table afterwards and the descriptor closed. -/
def teardown_release (s : ServerState) (client_id : Nat) : ServerState × Int :=
  let client := s.clients client_id
  ({ s with clients := Function.update s.clients client_id { client with active := 0 } },
   client.socket_fd)

/-- Lines 113-115 of `handle_client`: `client_count--` between
`pthread_mutex_lock` and `pthread_mutex_unlock`. -/
def teardown_decrement (s : ServerState) : ServerState :=
  { s with client_count := s.client_count - 1 }

/-- Where a worker thread stands: inside its receive loop (lines 92-108), past
line 111 and not yet past line 114, or returned. -/
inductive WorkerPc where
  | serving
  | released
  | returned
deriving DecidableEq, Repr

/-- A worker thread: the `client_id` it was created with and where it stands. -/
structure Worker where
  client_id : Nat
  pc : WorkerPc
deriving DecidableEq, Repr

/-- The program while it runs: the shared table and the worker threads created
so far, oldest first. -/
structure Server where
  table : ServerState
  workers : List Worker

/-- The program when `start_server` is entered: `initialize_server` has run and
no worker exists. -/
def server_start : Server :=
  { table := initialize_server, workers := [] }

/-- A step of one thread.  `accept` is one pass of the accept thread through lines
158-185 (it holds the lock throughout, and the only write another thread can make
meanwhile, line 111 on a slot in use, commutes with it); `release k` is worker
number `k` leaving its loop and running lines 110-111; `decrement k` is worker
number `k` running lines 113-115 and returning. -/
inductive Move where
  | accept (client_fd : Int) (client_addr : sockaddr_in)
  | release (k : Nat)
  | decrement (k : Nat)

/-- The program after a step; a step of a worker that does not exist or does not
stand at the lines of the step changes nothing. -/
def move (σ : Server) : Move → Server
  | Move.accept client_fd client_addr =>
    let o := accept_step σ.table client_fd client_addr
    { table := o.state
      workers := σ.workers ++
        (match o.spawned with
         | some client_id => [{ client_id := client_id.toNat, pc := WorkerPc.serving }]
         | none => []) }
  | Move.release k =>
    match σ.workers.get? k with
    | some w =>
      if w.pc = WorkerPc.serving then
        { table := (teardown_release σ.table w.client_id).1
          workers := σ.workers.set k { w with pc := WorkerPc.released } }
      else σ
    | none => σ
  | Move.decrement k =>
    match σ.workers.get? k with
    | some w =>
      if w.pc = WorkerPc.released then
        { table := teardown_decrement σ.table
          workers := σ.workers.set k { w with pc := WorkerPc.returned } }
      else σ
    | none => σ

/-- The program after a sequence of steps. -/
def run_moves (σ : Server) (moves : List Move) : Server :=
  moves.foldl move σ

/-- Number of workers that have run line 111 and not yet line 114. -/
def released_workers (σ : Server) : Nat :=
  σ.workers.countP (fun w => decide (w.pc = WorkerPc.released))

/-- Number of workers inside their receive loop that were created for slot `i`. -/
def serving_at (σ : Server) (i : Nat) : Nat :=
  σ.workers.countP (fun w => decide (w.pc = WorkerPc.serving) && decide (w.client_id = i))

/-- The steps in which the connections of `ten_connections` are accepted. -/
def ten_accepts : List Move :=
  ten_connections.map (fun c => Move.accept c.1 c.2)

/-- What holds of the program between any two steps: every `active` field is 0 or
1, no index from `MAX_CONNECTIONS` on is in use, each slot in use has exactly one
worker inside its receive loop and each free slot has none, and `client_count`
counts the slots in use and the workers between line 111 and line 114. -/
def server_invariant (σ : Server) : Prop :=
  binary_flags σ.table ∧
  (∀ i, MAX_CONNECTIONS ≤ i → (σ.table.clients i).active = 0) ∧
  (∀ i, serving_at σ i = if (σ.table.clients i).active = 1 then 1 else 0) ∧
  σ.table.client_count = (active_slots σ.table : Int) + (released_workers σ : Int)

/-! ## Statements in program order -/

/-- A statement of `start_server` or of `handle_client` that takes or gives back
`server_state.lock`, writes a field of the table (with the value written),
closes a descriptor or creates a worker thread. -/
inductive Action where
  | lock
  | unlock
  | write_socket_fd (i : Nat) (v : Int)
  | write_address (i : Nat) (v : sockaddr_in)
  | write_active (i : Nat) (v : Int)
  | write_username (i : Nat) (v : List Char)
  | write_client_count (v : Int)
  | close (fd : Int)
  | pthread_create (arg : Int)
deriving DecidableEq, Repr

/-- The table after one statement. -/
def apply_action (s : ServerState) : Action → ServerState
  | Action.write_socket_fd i v =>
    { s with clients := Function.update s.clients i { s.clients i with socket_fd := v } }
  | Action.write_address i v =>
    { s with clients := Function.update s.clients i { s.clients i with address := v } }
  | Action.write_active i v =>
    { s with clients := Function.update s.clients i { s.clients i with active := v } }
  | Action.write_username i v =>
    { s with clients := Function.update s.clients i { s.clients i with username := v } }
  | Action.write_client_count v => { s with client_count := v }
  | _ => s

/-- Whether a statement writes a slot field or `client_count`. -/
def writes_table : Action → Bool
  | Action.write_socket_fd _ _ => true
  | Action.write_address _ _ => true
  | Action.write_active _ _ => true
  | Action.write_username _ _ => true
  | Action.write_client_count _ => true
  | _ => false

/-- The statements of lines 158-185 in the order the accept thread runs them. -/
def accept_actions (s : ServerState) (client_fd : Int) (client_addr : sockaddr_in) :
    List Action :=
  let client_id := find_free_slot s.clients
  [Action.lock]
    ++ (if client_id ≠ -1 then
          [Action.write_socket_fd client_id.toNat client_fd,
            Action.write_address client_id.toNat client_addr,
            Action.write_active client_id.toNat 1,
            Action.write_username client_id.toNat
              (("client_".toList ++ decimal client_id).take 31),
            Action.write_client_count (s.client_count + 1),
            Action.pthread_create client_id]
        else [Action.close client_fd])
    ++ [Action.unlock]

/-- The statements of lines 110-115 in the order the worker of slot `client_id`
runs them. -/
def teardown_actions (s : ServerState) (client_id : Nat) : List Action :=
  [Action.close (s.clients client_id).socket_fd,
    Action.write_active client_id 0,
    Action.lock,
    Action.write_client_count (s.client_count - 1),
    Action.unlock]

/-- Whether every table write of one thread's statements runs while that thread
holds the lock; `held` says whether it holds the lock at the start. -/
def writes_under_lock : Bool → List Action → Bool
  | _, [] => true
  | _, Action.lock :: rest => writes_under_lock true rest
  | _, Action.unlock :: rest => writes_under_lock false rest
  | held, a :: rest => (!writes_table a || held) && writes_under_lock held rest

/-! ## The whole worker -/

/-- The first white-space-delimited token of a text: the leading white space is
dropped and the characters up to the next white-space character are kept. -/
def first_token (s : List Char) : List Char :=
  (s.dropWhile isspace).takeWhile (fun c => !isspace c)

/-- The text that follows the first white-space-delimited token. -/
def after_first_token (s : List Char) : List Char :=
  (s.dropWhile isspace).dropWhile (fun c => !isspace c)

/-- The second white-space-delimited token of a text. -/
def second_token (s : List Char) : List Char :=
  first_token (after_first_token s)

/-- An environment in which `popen` starts the shell and the shell finds no
program to run: what arrives on the pipe is the shell's own complaint, which the
`2>&1` at the end of the command line sends to its standard output. -/
def sh_env : Env :=
  { files := fun _ => none
    writable := fun _ => false
    shell := fun c => some ("sh: 1: ".toList ++ first_token c ++ ": not found\n".toList) }

/-- Whether every string a call left in `cmd[256]`, `args[512]`, `path[512]` and
`command[512]` fits there with its terminator. -/
def fits_scratch (r : CommandResult) : Bool :=
  decide (r.cmd.length < 256) && decide (r.args.length < 512)
    && (match r.path with
        | some p => decide (p.length < 512)
        | none => true)
    && (match r.command with
        | some c => decide (c.length < 512)
        | none => true)

/-! ## The slot table: allocation and release -/

theorem scan_from_found (clients : Nat → ClientConnection) (n i : Nat)
    (h : ∃ k, i ≤ k ∧ k < i + n ∧ (clients k).active = 0) :
    ∃ k, i ≤ k ∧ k < i + n ∧ (clients k).active = 0 ∧
      (∀ j, i ≤ j → j < k → (clients j).active ≠ 0) ∧ scan_from clients i n = (k : Int) := by
  induction n generalizing i with
  | zero =>
    obtain ⟨k, h1, h2, _⟩ := h
    omega
  | succ n ih =>
    by_cases hi : (clients i).active = 0
    · refine ⟨i, le_refl i, by omega, hi, ?_, ?_⟩
      · intro j h1 h2
        omega
      · simp [scan_from, hi]
    · obtain ⟨k, h1, h2, h3⟩ := h
      have hk : k ≠ i := by
        intro e
        exact hi (e ▸ h3)
      obtain ⟨m, m1, m2, m3, m4, m5⟩ := ih (i + 1) ⟨k, by omega, by omega, h3⟩
      refine ⟨m, by omega, by omega, m3, ?_, ?_⟩
      · intro j h4 h5
        by_cases hj : j = i
        · exact hj ▸ hi
        · exact m4 j (by omega) h5
      · simp [scan_from, hi, m5]

theorem scan_from_full (clients : Nat → ClientConnection) (n i : Nat)
    (h : ∀ k, i ≤ k → k < i + n → (clients k).active ≠ 0) :
    scan_from clients i n = -1 := by
  induction n generalizing i with
  | zero => rfl
  | succ n ih =>
    have hi : (clients i).active ≠ 0 := h i (le_refl i) (by omega)
    simp only [scan_from, hi, if_false]
    exact ih (i + 1) (fun k h1 h2 => h k (by omega) (by omega))

/-- C1: in a table with a free slot the allocation step takes the smallest index
`i` whose slot has `active = 0`, stores the accepted descriptor and the peer
address there, sets `active` to 1, adds exactly 1 to `client_count`, hands `i` to
the worker it creates, closes nothing and leaves every other slot as it was. -/
theorem accept_step_lowest_free (s : ServerState) (client_fd : Int) (client_addr : sockaddr_in)
    (h : ∃ k, k < MAX_CONNECTIONS ∧ (s.clients k).active = 0) :
    ∃ i, i < MAX_CONNECTIONS ∧ (s.clients i).active = 0 ∧
      (∀ j, j < i → (s.clients j).active ≠ 0) ∧
      ((accept_step s client_fd client_addr).state.clients i).socket_fd = client_fd ∧
      ((accept_step s client_fd client_addr).state.clients i).address = client_addr ∧
      ((accept_step s client_fd client_addr).state.clients i).active = 1 ∧
      (accept_step s client_fd client_addr).state.client_count = s.client_count + 1 ∧
      (accept_step s client_fd client_addr).spawned = some (i : Int) ∧
      (accept_step s client_fd client_addr).closed = none ∧
      ∀ j, j ≠ i → (accept_step s client_fd client_addr).state.clients j = s.clients j := by
  obtain ⟨k, hk, hk0⟩ := h
  obtain ⟨i, _, i2, i3, i4, i5⟩ :=
    scan_from_found s.clients MAX_CONNECTIONS 0 ⟨k, Nat.zero_le k, by omega, hk0⟩
  have hne : (i : Int) ≠ -1 := by omega
  refine ⟨i, by omega, i3, fun j hj => i4 j (Nat.zero_le j) hj, ?_⟩
  simp only [accept_step, find_free_slot, i5, hne, ne_eq, not_false_eq_true, if_true,
    Int.toNat_ofNat, Function.update_same, true_and]
  intro j hj
  exact Function.update_noteq hj _ _

/-- C1 at `sample_table`, whose slots 0 and 2 are in use and whose slot 1 is free. -/
theorem accept_step_lowest_free_witness :
    (∃ k, k < MAX_CONNECTIONS ∧ (sample_table.clients k).active = 0) ∧
    ∃ i, i < MAX_CONNECTIONS ∧ (sample_table.clients i).active = 0 ∧
      (∀ j, j < i → (sample_table.clients j).active ≠ 0) ∧
      ((accept_step sample_table 9 ⟨2, 4, (10, 0, 0, 4)⟩).state.clients i).socket_fd = 9 ∧
      ((accept_step sample_table 9 ⟨2, 4, (10, 0, 0, 4)⟩).state.clients i).address
        = ⟨2, 4, (10, 0, 0, 4)⟩ ∧
      ((accept_step sample_table 9 ⟨2, 4, (10, 0, 0, 4)⟩).state.clients i).active = 1 ∧
      (accept_step sample_table 9 ⟨2, 4, (10, 0, 0, 4)⟩).state.client_count
        = sample_table.client_count + 1 ∧
      (accept_step sample_table 9 ⟨2, 4, (10, 0, 0, 4)⟩).spawned = some (i : Int) ∧
      (accept_step sample_table 9 ⟨2, 4, (10, 0, 0, 4)⟩).closed = none ∧
      ∀ j, j ≠ i →
        (accept_step sample_table 9 ⟨2, 4, (10, 0, 0, 4)⟩).state.clients j
          = sample_table.clients j :=
  ⟨⟨1, by decide, by decide⟩,
    accept_step_lowest_free sample_table 9 ⟨2, 4, (10, 0, 0, 4)⟩ ⟨1, by decide, by decide⟩⟩


/-- An allocation step in a table whose slots below `k` are in use and whose
slots from `k` on are free takes slot `k`. -/
theorem accept_step_next (s : ServerState) (k : Nat) (hk : k < MAX_CONNECTIONS)
    (h1 : ∀ j, j < k → (s.clients j).active ≠ 0)
    (h2 : ∀ j, k ≤ j → j < MAX_CONNECTIONS → (s.clients j).active = 0)
    (client_fd : Int) (client_addr : sockaddr_in) :
    (accept_step s client_fd client_addr).spawned = some (k : Int) ∧
    (∀ j, j < k + 1 → ((accept_step s client_fd client_addr).state.clients j).active ≠ 0) ∧
    (∀ j, k + 1 ≤ j → j < MAX_CONNECTIONS →
      ((accept_step s client_fd client_addr).state.clients j).active = 0) := by
  obtain ⟨i, _, _, i2, i3, i5⟩ :=
    scan_from_found s.clients MAX_CONNECTIONS 0 ⟨k, Nat.zero_le k, by omega, h2 k (le_refl k) hk⟩
  have hik : i = k := by
    rcases Nat.lt_trichotomy i k with h | h | h
    · exact absurd i2 (h1 i h)
    · exact h
    · exact absurd (h2 k (le_refl k) hk) (i3 k (Nat.zero_le k) h)
  subst hik
  have hne : (i : Int) ≠ -1 := by omega
  simp only [accept_step, find_free_slot, i5, hne, ne_eq, not_false_eq_true, if_true,
    Int.toNat_ofNat, true_and]
  refine ⟨?_, ?_⟩
  · intro j hj
    by_cases e : j = i
    · subst e
      simp only [Function.update_same]
      decide
    · simp only [Function.update_noteq e]
      exact h1 j (by omega)
  · intro j hj hj2
    have e : j ≠ i := by omega
    simp only [Function.update_noteq e]
    exact h2 j (by omega) hj2

theorem accept_all_fills (conns : List (Int × sockaddr_in)) (s : ServerState) (k : Nat)
    (hk : k + conns.length ≤ MAX_CONNECTIONS)
    (h1 : ∀ j, j < k → (s.clients j).active ≠ 0)
    (h2 : ∀ j, k ≤ j → j < MAX_CONNECTIONS → (s.clients j).active = 0) :
    (accept_all s conns).2 = (List.range' k conns.length).map (fun (i : Nat) => some (i : Int)) ∧
    (∀ j, j < k + conns.length → ((accept_all s conns).1.clients j).active ≠ 0) := by
  induction conns generalizing s k with
  | nil => exact ⟨rfl, h1⟩
  | cons c rest ih =>
    obtain ⟨fd, addr⟩ := c
    have hlen : (((fd, addr) :: rest) : List (Int × sockaddr_in)).length = rest.length + 1 := rfl
    rw [hlen] at hk
    obtain ⟨a1, a2, a3⟩ := accept_step_next s k (by omega) h1 h2 fd addr
    obtain ⟨b1, b2⟩ := ih (accept_step s fd addr).state (k + 1) (by omega) a2 a3
    refine ⟨?_, ?_⟩
    · simp only [accept_all, a1, b1, hlen, List.range'_succ, List.map_cons]
    · intro j hj
      simp only [accept_all]
      exact b2 j (by rw [hlen] at hj; omega)

/-- C2: starting from the table of `initialize_server`, `MAX_CONNECTIONS`
allocation steps in a row hand out the indices 0 to 9 in order, and the next
allocation step creates no worker, closes the accepted descriptor and leaves the
table (every slot and `client_count`) as it was. -/
theorem full_table_rejects (conns : List (Int × sockaddr_in))
    (hlen : conns.length = MAX_CONNECTIONS) (client_fd : Int) (client_addr : sockaddr_in) :
    (accept_all initialize_server conns).2
      = (List.range MAX_CONNECTIONS).map (fun (i : Nat) => some (i : Int)) ∧
    (accept_step (accept_all initialize_server conns).1 client_fd client_addr).state
      = (accept_all initialize_server conns).1 ∧
    (accept_step (accept_all initialize_server conns).1 client_fd client_addr).spawned = none ∧
    (accept_step (accept_all initialize_server conns).1 client_fd client_addr).closed
      = some client_fd := by
  obtain ⟨h1, h2⟩ := accept_all_fills conns initialize_server 0 (by omega)
    (fun j hj => absurd hj (Nat.not_lt_zero j)) (fun j _ _ => rfl)
  have hfull : find_free_slot (accept_all initialize_server conns).1.clients = -1 :=
    scan_from_full _ MAX_CONNECTIONS 0 (fun k _ hk => h2 k (by omega))
  refine ⟨?_, ?_, ?_, ?_⟩
  · rw [h1, hlen, List.range_eq_range']
  · simp [accept_step, hfull]
  · simp [accept_step, hfull]
  · simp [accept_step, hfull]

/-- C2 for the ten connections of `ten_connections` and an eleventh with descriptor 13. -/
theorem full_table_rejects_witness :
    ten_connections.length = MAX_CONNECTIONS ∧
    (accept_all initialize_server ten_connections).2
      = (List.range MAX_CONNECTIONS).map (fun (i : Nat) => some (i : Int)) ∧
    (accept_step (accept_all initialize_server ten_connections).1 13
        ⟨2, 4010, (10, 0, 0, 10)⟩).state
      = (accept_all initialize_server ten_connections).1 ∧
    (accept_step (accept_all initialize_server ten_connections).1 13
        ⟨2, 4010, (10, 0, 0, 10)⟩).spawned = none ∧
    (accept_step (accept_all initialize_server ten_connections).1 13
        ⟨2, 4010, (10, 0, 0, 10)⟩).closed = some 13 :=
  ⟨by decide, full_table_rejects ten_connections (by decide) 13 ⟨2, 4010, (10, 0, 0, 10)⟩⟩

/-! ## The slot table: invariants -/

theorem countP_range_update (f : Nat → ClientConnection) (i : Nat) (c : ClientConnection)
    (n : Nat) :
    (((List.range n).countP (fun j => decide ((Function.update f i c j).active = 1)) : Nat) : Int)
      = ((List.range n).countP (fun j => decide ((f j).active = 1)) : Nat)
        + (if i < n then (if c.active = 1 then 1 else 0) - (if (f i).active = 1 then 1 else 0)
           else 0) := by
  induction n with
  | zero => simp
  | succ n ih =>
    rw [List.range_succ, List.countP_append, List.countP_append]
    push_cast
    rw [ih]
    rcases Nat.lt_trichotomy i n with h | h | h
    · have h1 : n ≠ i := by omega
      have h2 : i < n + 1 := by omega
      simp [List.countP_cons, Function.update_noteq h1, h, h2]
      ring
    · subst h
      simp [List.countP_cons]
    · have h1 : n ≠ i := by omega
      have h2 : ¬ i < n + 1 := by omega
      have h3 : ¬ i < n := by omega
      simp [List.countP_cons, Function.update_noteq h1, h2, h3]

theorem active_slots_le (s : ServerState) : active_slots s ≤ MAX_CONNECTIONS := by
  unfold active_slots
  calc (List.range MAX_CONNECTIONS).countP _ ≤ (List.range MAX_CONNECTIONS).length :=
        List.countP_le_length _
    _ = MAX_CONNECTIONS := List.length_range _

/-! ## The table while accept thread and workers interleave -/

/-- The two halves of the teardown, run one after the other, are
`worker_teardown`. -/
theorem teardown_halves (s : ServerState) (client_id : Nat) :
    teardown_decrement (teardown_release s client_id).1 = (worker_teardown s client_id).1 ∧
    (teardown_release s client_id).2 = (worker_teardown s client_id).2 :=
  ⟨rfl, rfl⟩

theorem countP_set (p : Worker → Bool) (l : List Worker) (k : Nat) (w v : Worker)
    (h : l.get? k = some w) :
    (l.set k v).countP p + (if p w = true then 1 else 0)
      = l.countP p + (if p v = true then 1 else 0) := by
  induction l generalizing k with
  | nil => simp at h
  | cons x xs ih =>
    cases k with
    | zero =>
      simp only [List.get?_cons_zero, Option.some.injEq] at h
      subst h
      simp only [List.set_cons_zero, List.countP_cons]
      omega
    | succ k =>
      simp only [List.get?_cons_succ] at h
      have := ih k h
      simp only [List.set_cons_succ, List.countP_cons]
      omega

/-- The two ways the allocation step can end, with what it hands out. -/
theorem accept_step_outcome (s : ServerState) (client_fd : Int) (client_addr : sockaddr_in) :
    accept_step s client_fd client_addr
        = { state := s, spawned := none, closed := some client_fd } ∨
    ∃ i c, i < MAX_CONNECTIONS ∧ (s.clients i).active = 0 ∧ c.active = 1 ∧
      accept_step s client_fd client_addr
        = { state := { clients := Function.update s.clients i c,
                       client_count := s.client_count + 1 },
            spawned := some (i : Int), closed := none } := by
  by_cases h : ∃ k, k < MAX_CONNECTIONS ∧ (s.clients k).active = 0
  · right
    obtain ⟨k, hk, hk0⟩ := h
    obtain ⟨i, _, i2, i3, _, i5⟩ :=
      scan_from_found s.clients MAX_CONNECTIONS 0 ⟨k, Nat.zero_le k, by omega, hk0⟩
    have hne : (i : Int) ≠ -1 := by omega
    refine ⟨i, (⟨client_fd, client_addr, ("client_".toList ++ decimal (i : Int)).take 31, 1⟩ :
      ClientConnection), by omega, i3, rfl, ?_⟩
    simp only [accept_step, find_free_slot, i5, hne, ne_eq, not_false_eq_true, if_true,
      Int.toNat_ofNat]
  · left
    have hfull : find_free_slot s.clients = -1 :=
      scan_from_full _ MAX_CONNECTIONS 0 (fun k _ hk hk0 => h ⟨k, by omega, hk0⟩)
    simp [accept_step, hfull]

theorem accept_keeps_invariant (σ : Server) (client_fd : Int) (client_addr : sockaddr_in)
    (h : server_invariant σ) : server_invariant (move σ (Move.accept client_fd client_addr)) := by
  obtain ⟨ha, hb, hc, hd⟩ := h
  rcases accept_step_outcome σ.table client_fd client_addr with e | ⟨i, c, hi, h0, hc1, e⟩
  · have hm : move σ (Move.accept client_fd client_addr) = σ := by
      simp only [move, e, List.append_nil]
    rw [hm]
    exact ⟨ha, hb, hc, hd⟩
  · have hm : move σ (Move.accept client_fd client_addr)
        = { table := { clients := Function.update σ.table.clients i c,
                       client_count := σ.table.client_count + 1 },
            workers := σ.workers ++ [{ client_id := i, pc := WorkerPc.serving }] } := by
      simp only [move, e, Int.toNat_ofNat]
    rw [hm]
    refine ⟨?_, ?_, ?_, ?_⟩
    · intro j
      by_cases ej : j = i
      · right
        subst ej
        simp only [Function.update_same]
        exact hc1
      · simp only [Function.update_noteq ej]
        exact ha j
    · intro j hj
      have ej : j ≠ i := by omega
      simp only [Function.update_noteq ej]
      exact hb j hj
    · intro j
      have hs := hc j
      simp only [serving_at] at hs ⊢
      simp only [List.countP_append, List.countP_cons, List.countP_nil]
      by_cases ej : j = i
      · subst ej
        simp only [h0] at hs
        simp only [Function.update_same, hc1, hs]
        simp
      · have ei : ¬ i = j := fun e => ej e.symm
        simp only [Function.update_noteq ej, hs]
        simp [ei]
    · have hcount := countP_range_update σ.table.clients i c MAX_CONNECTIONS
      simp only [hi, if_true, hc1, h0] at hcount
      simp only [active_slots, released_workers] at hd ⊢
      simp only [List.countP_append, List.countP_cons, List.countP_nil]
      rw [hcount, hd]
      simp
      omega

theorem release_keeps_invariant (σ : Server) (k : Nat) (h : server_invariant σ) :
    server_invariant (move σ (Move.release k)) := by
  obtain ⟨ha, hb, hc, hd⟩ := h
  simp only [move]
  cases hw : σ.workers.get? k with
  | none => exact ⟨ha, hb, hc, hd⟩
  | some w =>
    by_cases hpc : w.pc = WorkerPc.serving
    · simp only [hpc, if_true]
      have hset := fun p => countP_set p σ.workers k w { w with pc := WorkerPc.released } hw
      have hsi := hset (fun v => decide (v.pc = WorkerPc.serving) && decide (v.client_id = w.client_id))
      simp only [hpc, decide_True, Bool.and_self, if_true] at hsi
      have hact : (σ.table.clients w.client_id).active = 1 := by
        have := hc w.client_id
        simp only [serving_at] at this
        by_contra hne
        simp only [hne, if_false] at this
        simp at hsi
        omega
      have hlt : w.client_id < MAX_CONNECTIONS := by
        by_contra hge
        have := hb w.client_id (by omega)
        omega
      refine ⟨?_, ?_, ?_, ?_⟩
      · intro j
        by_cases ej : j = w.client_id
        · left
          subst ej
          simp only [teardown_release, Function.update_same]
        · simp only [teardown_release, Function.update_noteq ej]
          exact ha j
      · intro j hj
        have ej : j ≠ w.client_id := by omega
        simp only [teardown_release, Function.update_noteq ej]
        exact hb j hj
      · intro j
        have hs := hc j
        simp only [serving_at] at hs ⊢
        have hsj := hset (fun v => decide (v.pc = WorkerPc.serving) && decide (v.client_id = j))
        by_cases ej : j = w.client_id
        · subst ej
          simp only [hpc, decide_True, Bool.and_self, if_true] at hsj
          simp only [hact, if_true] at hs
          simp only [teardown_release, Function.update_same]
          have g1 : (decide (WorkerPc.released = WorkerPc.serving) && true) = false := rfl
          have g2 : (if (0 : Int) = 1 then (1 : Nat) else 0) = 0 := by decide
          simp only [g1, Bool.false_eq_true, if_false] at hsj
          rw [g2]
          omega
        · have ei : ¬ w.client_id = j := fun e => ej e.symm
          simp only [teardown_release, Function.update_noteq ej]
          simp [ei] at hsj
          simp only [hs] at hsj
          simp only [hsj]
      · have hcount := countP_range_update σ.table.clients w.client_id
          { σ.table.clients w.client_id with active := 0 } MAX_CONNECTIONS
        simp only [hlt, if_true, hact] at hcount
        have hr := hset (fun v => decide (v.pc = WorkerPc.released))
        simp [hpc] at hr
        simp only [active_slots, released_workers, teardown_release] at hd ⊢
        rw [hcount, hd]
        simp
        omega
    · simp only [hpc, if_false]
      exact ⟨ha, hb, hc, hd⟩

theorem decrement_keeps_invariant (σ : Server) (k : Nat) (h : server_invariant σ) :
    server_invariant (move σ (Move.decrement k)) := by
  obtain ⟨ha, hb, hc, hd⟩ := h
  simp only [move]
  cases hw : σ.workers.get? k with
  | none => exact ⟨ha, hb, hc, hd⟩
  | some w =>
    by_cases hpc : w.pc = WorkerPc.released
    · simp only [hpc, if_true]
      have hset := fun p => countP_set p σ.workers k w { w with pc := WorkerPc.returned } hw
      refine ⟨ha, hb, ?_, ?_⟩
      · intro j
        have hs := hc j
        simp only [serving_at] at hs ⊢
        have hsj := hset (fun v => decide (v.pc = WorkerPc.serving) && decide (v.client_id = j))
        simp [hpc] at hsj
        simp only [teardown_decrement]
        rw [hsj]
        exact hs
      · have hr := hset (fun v => decide (v.pc = WorkerPc.released))
        simp [hpc] at hr
        simp only [active_slots, released_workers, teardown_decrement] at hd ⊢
        rw [hd]
        omega
    · simp only [hpc, if_false]
      exact ⟨ha, hb, hc, hd⟩

theorem server_start_invariant : server_invariant server_start := by
  refine ⟨fun i => Or.inl rfl, fun i _ => rfl, fun i => rfl, ?_⟩
  decide

/-- The invariant holds after every sequence of steps from the start. -/
theorem run_moves_invariant (moves : List Move) (σ : Server) (h : server_invariant σ) :
    server_invariant (run_moves σ moves) := by
  induction moves generalizing σ with
  | nil => exact h
  | cons m rest ih =>
    simp only [run_moves, List.foldl_cons]
    apply ih
    cases m with
    | accept fd addr => exact accept_keeps_invariant σ fd addr h
    | release k => exact release_keeps_invariant σ k h
    | decrement k => exact decrement_keeps_invariant σ k h

/-- After every sequence of steps of the accept thread and the workers,
`client_count` is the number of slots with `active = 1` plus the number of
workers that have run line 111 and not yet line 114. -/
theorem client_count_counts_released (moves : List Move) :
    (run_moves server_start moves).table.client_count
      = (active_slots (run_moves server_start moves).table : Int)
        + (released_workers (run_moves server_start moves) : Int) :=
  (run_moves_invariant moves server_start server_start_invariant).2.2.2

/-- C3, when a client connects and closes: once its worker has run line 111
(`active = 0`, outside the lock) and before it runs line 114, `client_count` is 1
and no slot is active.  With ten clients, if the accept thread takes an eleventh
connection in that window, `client_count` is 11 with ten active slots. -/
theorem client_count_differs_mid_teardown :
    (run_moves server_start
      [Move.accept 3 ⟨2, 1, (10, 0, 0, 1)⟩, Move.release 0]).table.client_count = 1 ∧
    active_slots (run_moves server_start
      [Move.accept 3 ⟨2, 1, (10, 0, 0, 1)⟩, Move.release 0]).table = 0 ∧
    (run_moves server_start (ten_accepts ++
      [Move.release 0, Move.accept 13 ⟨2, 4010, (10, 0, 0, 10)⟩])).table.client_count = 11 ∧
    active_slots (run_moves server_start (ten_accepts ++
      [Move.release 0, Move.accept 13 ⟨2, 4010, (10, 0, 0, 10)⟩])).table = 10 := by
  decide

/-- C4 as stated fails.  The teardown applied to slot 0 of the initialized table
leaves `client_count` at -1, below 0.  And with ten clients connected, an
allocation step that runs after line 111 of a worker and before its line 114
leaves `client_count` at 11, above `MAX_CONNECTIONS`. -/
theorem capacity_bounds_fail :
    (worker_teardown initialize_server 0).1.client_count = -1 ∧
    ¬ (0 ≤ (worker_teardown initialize_server 0).1.client_count) ∧
    (run_moves server_start (ten_accepts ++
      [Move.release 0, Move.accept 13 ⟨2, 4010, (10, 0, 0, 10)⟩])).table.client_count = 11 ∧
    ¬ ((run_moves server_start (ten_accepts ++
      [Move.release 0, Move.accept 13 ⟨2, 4010, (10, 0, 0, 10)⟩])).table.client_count
        ≤ MAX_CONNECTIONS) := by
  decide

/-- C4, amended: after every step of every sequence of steps of the accept thread
and of the workers it created, `client_count` is at least 0, and it is at most
`MAX_CONNECTIONS` whenever no worker stands between line 111 and line 114.  The
teardown has no guard: applied to any table and any slot it takes 1 from
`client_count`. -/
theorem capacity_invariant (moves : List Move) (k : Nat) :
    0 ≤ (run_moves server_start (moves.take k)).table.client_count ∧
    (released_workers (run_moves server_start (moves.take k)) = 0 →
      (run_moves server_start (moves.take k)).table.client_count ≤ MAX_CONNECTIONS) ∧
    ∀ (s : ServerState) (client_id : Nat),
      (worker_teardown s client_id).1.client_count = s.client_count - 1 := by
  have h := (run_moves_invariant (moves.take k) server_start server_start_invariant).2.2.2
  have hle := active_slots_le (run_moves server_start (moves.take k)).table
  refine ⟨by omega, ?_, fun s client_id => rfl⟩
  intro h0
  rw [h0] at h
  omega

/-- C4 (amended) after each step of: two clients accepted, the first worker's
teardown in its two halves, a third client accepted. -/
theorem capacity_invariant_witness :
    released_workers (run_moves server_start
      ([Move.accept 3 ⟨2, 1, (10, 0, 0, 1)⟩, Move.accept 4 ⟨2, 2, (10, 0, 0, 2)⟩,
        Move.release 0, Move.decrement 0, Move.accept 5 ⟨2, 3, (10, 0, 0, 3)⟩].take 5)) = 0 ∧
    (run_moves server_start
      ([Move.accept 3 ⟨2, 1, (10, 0, 0, 1)⟩, Move.accept 4 ⟨2, 2, (10, 0, 0, 2)⟩,
        Move.release 0, Move.decrement 0, Move.accept 5 ⟨2, 3, (10, 0, 0, 3)⟩].take 5)
      ).table.client_count ≤ MAX_CONNECTIONS ∧
    ∀ k, 0 ≤ (run_moves server_start
      ([Move.accept 3 ⟨2, 1, (10, 0, 0, 1)⟩, Move.accept 4 ⟨2, 2, (10, 0, 0, 2)⟩,
        Move.release 0, Move.decrement 0, Move.accept 5 ⟨2, 3, (10, 0, 0, 3)⟩].take k)
      ).table.client_count :=
  ⟨by decide,
    (capacity_invariant [Move.accept 3 ⟨2, 1, (10, 0, 0, 1)⟩,
      Move.accept 4 ⟨2, 2, (10, 0, 0, 2)⟩, Move.release 0, Move.decrement 0,
      Move.accept 5 ⟨2, 3, (10, 0, 0, 3)⟩] 5).2.1 (by decide),
    fun k => (capacity_invariant _ k).1⟩

/-! ## The parser of `process_command` -/

theorem skip_space_eq (s : List Char) : skip_space s = s.dropWhile isspace := by
  induction s with
  | nil => rfl
  | cons c cs ih =>
    by_cases h : isspace c = true
    · simp [skip_space, List.dropWhile, h, ih]
    · simp [skip_space, List.dropWhile, h]

theorem scan_token_fst (w : Nat) (s : List Char) :
    (scan_token w s).1 = (s.takeWhile (fun c => !isspace c)).take w := by
  induction w generalizing s with
  | zero => simp [scan_token]
  | succ w ih =>
    cases s with
    | nil => simp [scan_token]
    | cons c cs =>
      by_cases h : isspace c = true
      · simp [scan_token, List.takeWhile, h]
      · simp [scan_token, List.takeWhile, h, ih]

theorem conv_s_of_token (w : Nat) (s : List Char) (h : first_token s ≠ []) :
    conv_s w s = some (scan_token w (s.dropWhile isspace)) := by
  unfold conv_s
  rw [skip_space_eq]
  unfold first_token at h
  cases hd : s.dropWhile isspace with
  | nil => simp [hd] at h
  | cons c cs => rfl

theorem sscanf_cmd (buffer cmd0 args0 : List Char) (h : first_token (cstr buffer) ≠ []) :
    (sscanf_cmd_args buffer cmd0 args0).1 = (first_token (cstr buffer)).take 255 := by
  unfold sscanf_cmd_args
  rw [conv_s_of_token 255 _ h]
  simp only []
  cases conv_s 511 (skip_space (scan_token 255 ((cstr buffer).dropWhile isspace)).2) with
  | none => simp only [scan_token_fst]; rfl
  | some r => simp only [scan_token_fst]; rfl

theorem process_command_scratch (env : Env) (cmd0 args0 buffer : List Char) :
    (process_command env cmd0 args0 buffer).cmd = (sscanf_cmd_args buffer cmd0 args0).1 ∧
    (process_command env cmd0 args0 buffer).args = (sscanf_cmd_args buffer cmd0 args0).2.1 ∧
    (process_command env cmd0 args0 buffer).ret = 0 := by
  unfold process_command
  simp only []
  repeat' split
  all_goals exact ⟨rfl, rfl, rfl⟩

theorem strchr_append (p rest : List Char) (c : Char) (h1 : c ∉ p) (h2 : NUL ∉ p) :
    strchr (p ++ c :: rest) c = some p.length := by
  induction p with
  | nil => simp [strchr]
  | cons x xs ih =>
    simp only [List.mem_cons, not_or] at h1 h2
    have hx : ¬ x = c := fun e => h1.1 e.symm
    have hn : ¬ x = NUL := fun e => h2.1 e.symm
    simp [strchr, hx, hn, ih h1.2 h2.2]

theorem cstr_append_nul (p rest : List Char) (h : NUL ∉ p) : cstr (p ++ NUL :: rest) = p := by
  induction p with
  | nil => simp [cstr]
  | cons x xs ih =>
    simp only [List.mem_cons, not_or] at h
    have hn : ¬ x = NUL := fun e => h.1 e.symm
    simp [cstr, hn, ih h.2]

theorem cstr_of_not_mem (b : List Char) (h : NUL ∉ b) : cstr b = b := by
  induction b with
  | nil => rfl
  | cons x xs ih =>
    simp only [List.mem_cons, not_or] at h
    have hn : ¬ x = NUL := fun e => h.1 e.symm
    simp [cstr, hn, ih h.2]

theorem set_at_length (pre post : List Char) (x a : Char) :
    (pre ++ x :: post).set pre.length a = pre ++ a :: post := by
  induction pre with
  | nil => rfl
  | cons y ys ih => simp [List.set, ih]

/-- The PUT branch on a buffer `pre ' ' p ' ' rest` in which `pre` and `p` hold
neither a space nor a NUL: the space after `p` is overwritten by a NUL, the file
opened for writing is `p` and what is written is the string that starts `rest`. -/
theorem put_dispatch (env : Env) (cmd0 args0 pre p rest : List Char)
    (hcmd : (sscanf_cmd_args (pre ++ ' ' :: (p ++ ' ' :: rest)) cmd0 args0).1 = "PUT".toList)
    (h1 : ' ' ∉ pre) (h2 : NUL ∉ pre) (h3 : ' ' ∉ p) (h4 : NUL ∉ p) :
    (process_command env cmd0 args0 (pre ++ ' ' :: (p ++ ' ' :: rest))).buffer
      = pre ++ ' ' :: (p ++ NUL :: rest) ∧
    (env.writable p = true →
      (process_command env cmd0 args0 (pre ++ ' ' :: (p ++ ' ' :: rest))).events
        = [Event.fopen p "w".toList true, Event.fwrite p (cstr rest), Event.fclose p] ∧
      (process_command env cmd0 args0 (pre ++ ' ' :: (p ++ ' ' :: rest))).files
        = fun q => if q = p then some (cstr rest) else env.files q) ∧
    (env.writable p = false →
      (process_command env cmd0 args0 (pre ++ ' ' :: (p ++ ' ' :: rest))).events
        = [Event.fopen p "w".toList false] ∧
      (process_command env cmd0 args0 (pre ++ ' ' :: (p ++ ' ' :: rest))).files = env.files) := by
  have hget : strcmp_zero "PUT".toList "GET".toList = false := by decide
  have hput : strcmp_zero "PUT".toList "PUT".toList = true := by decide
  have hs1 : strchr (pre ++ ' ' :: (p ++ ' ' :: rest)) ' ' = some pre.length :=
    strchr_append pre _ ' ' h1 h2
  have hd : (pre ++ ' ' :: (p ++ ' ' :: rest)).drop (pre.length + 1) = p ++ ' ' :: rest := by
    rw [← List.drop_drop, List.drop_left]
    rfl
  have hs2 : strchr (p ++ ' ' :: rest) ' ' = some p.length := strchr_append p _ ' ' h3 h4
  have hset : (pre ++ ' ' :: (p ++ ' ' :: rest)).set (pre.length + 1 + p.length) NUL
      = pre ++ ' ' :: (p ++ NUL :: rest) := by
    have e : pre ++ ' ' :: (p ++ ' ' :: rest) = (pre ++ ' ' :: p) ++ ' ' :: rest := by simp
    have l : pre.length + 1 + p.length = (pre ++ ' ' :: p).length := by simp; omega
    rw [e, l, set_at_length]
    simp
  have hd1 : (pre ++ ' ' :: (p ++ NUL :: rest)).drop (pre.length + 1 + p.length + 1) = rest := by
    have e : pre ++ ' ' :: (p ++ NUL :: rest) = (pre ++ ' ' :: p ++ [NUL]) ++ rest := by simp
    have l : pre.length + 1 + p.length + 1 = (pre ++ ' ' :: p ++ [NUL]).length := by simp; omega
    rw [e, l, List.drop_left]
  have hd2 : (pre ++ ' ' :: (p ++ NUL :: rest)).drop (pre.length + 1) = p ++ NUL :: rest := by
    rw [← List.drop_drop, List.drop_left]
    rfl
  simp only [process_command, hcmd, hget, hput, hs1, hd, hs2, hset, hd1, hd2,
    cstr_append_nul p rest h4, Bool.false_eq_true, if_false, if_true]
  refine ⟨?_, ?_, ?_⟩
  · split <;> rfl
  · intro hw
    simp [hw]
  · intro hw
    simp [hw]

theorem sscanf_put (tail cmd0 args0 : List Char) :
    (sscanf_cmd_args ('P' :: 'U' :: 'T' :: ' ' :: tail) cmd0 args0).1 = "PUT".toList := by
  have h : first_token (cstr ('P' :: 'U' :: 'T' :: ' ' :: tail)) = "PUT".toList := by
    have n1 : ¬ 'P' = NUL := by decide
    have n2 : ¬ 'U' = NUL := by decide
    have n3 : ¬ 'T' = NUL := by decide
    have n4 : ¬ ' ' = NUL := by decide
    have s1 : isspace 'P' = false := by decide
    have s2 : isspace 'U' = false := by decide
    have s3 : isspace 'T' = false := by decide
    have s4 : isspace ' ' = true := by decide
    simp [cstr, first_token, List.dropWhile, List.takeWhile, n1, n2, n3, n4, s1, s2, s3, s4]
  rw [sscanf_cmd _ _ _ (by rw [h]; decide), h]
  rfl

/-- C6 as stated fails: after the record `"PUT out.txt body-text\n"` the file
`out.txt` holds `"body-text\n"`, the body followed by the record's line
terminator, not `"body-text"`. -/
theorem put_keeps_line_terminator :
    (process_command writable_env [] [] "PUT out.txt body-text\n".toList).files "out.txt".toList
      = some "body-text\n".toList ∧
    (process_command writable_env [] [] "PUT out.txt body-text\n".toList).files "out.txt".toList
      ≠ some "body-text".toList := by
  decide

/-- C6, amended: for every non-empty path `p` containing no white space (and no
NUL) and every body `b`, when the record `"PUT p b\n"` fits the receive buffer
(at most `BUFFER_SIZE - 1` bytes) and `p` can be opened for writing, processing
the record opens `p` for writing and leaves it holding `b` followed by the
record's line terminator (for a body with a NUL byte: what precedes that byte).
The terminator is part of what is written; nothing else is added. -/
theorem put_file_content (env : Env) (cmd0 args0 p b : List Char)
    (_hp : p ≠ []) (hsp : ∀ c ∈ p, isspace c = false) (hnul : NUL ∉ p)
    (_hlen : ("PUT ".toList ++ p ++ " ".toList ++ b ++ "\n".toList).length ≤ BUFFER_SIZE - 1)
    (hw : env.writable p = true) :
    (process_command env cmd0 args0
        ("PUT ".toList ++ p ++ " ".toList ++ b ++ "\n".toList)).events
      = [Event.fopen p "w".toList true, Event.fwrite p (cstr (b ++ "\n".toList)),
          Event.fclose p] ∧
    (process_command env cmd0 args0
        ("PUT ".toList ++ p ++ " ".toList ++ b ++ "\n".toList)).files p
      = some (cstr (b ++ "\n".toList)) ∧
    (NUL ∉ b →
      (process_command env cmd0 args0
          ("PUT ".toList ++ p ++ " ".toList ++ b ++ "\n".toList)).files p
        = some (b ++ "\n".toList)) := by
  have hspace : ' ' ∉ p := by
    intro hm
    have := hsp ' ' hm
    revert this
    decide
  have e : "PUT ".toList ++ p ++ " ".toList ++ b ++ "\n".toList
      = "PUT".toList ++ ' ' :: (p ++ ' ' :: (b ++ "\n".toList)) := by
    simp
  have hcmd : (sscanf_cmd_args ("PUT".toList ++ ' ' :: (p ++ ' ' :: (b ++ "\n".toList)))
      cmd0 args0).1 = "PUT".toList := sscanf_put _ cmd0 args0
  obtain ⟨_, h2, _⟩ := put_dispatch env cmd0 args0 "PUT".toList p (b ++ "\n".toList) hcmd
    (by decide) (by decide) hspace hnul
  obtain ⟨hev, hfiles⟩ := h2 hw
  rw [e]
  refine ⟨hev, ?_, ?_⟩
  · rw [hfiles]
    simp
  · intro hb
    rw [hfiles]
    have hb2 : NUL ∉ b ++ "\n".toList := by
      intro hm
      rcases List.mem_append.mp hm with h | h
      · exact hb h
      · revert h
        decide
    simp only [if_true, cstr_of_not_mem _ hb2]

/-- C6 (amended) for the path `out.txt` and the body `body-text`. -/
theorem put_file_content_witness :
    "out.txt".toList ≠ [] ∧ (∀ c ∈ "out.txt".toList, isspace c = false) ∧
    NUL ∉ "out.txt".toList ∧
    ("PUT ".toList ++ "out.txt".toList ++ " ".toList ++ "body-text".toList
      ++ "\n".toList).length ≤ BUFFER_SIZE - 1 ∧
    writable_env.writable "out.txt".toList = true ∧
    NUL ∉ "body-text".toList ∧
    (process_command writable_env [] []
        ("PUT ".toList ++ "out.txt".toList ++ " ".toList ++ "body-text".toList
          ++ "\n".toList)).files "out.txt".toList
      = some ("body-text".toList ++ "\n".toList) :=
  ⟨by decide, by decide, by decide, by decide, rfl, by decide,
    (put_file_content writable_env [] [] "out.txt".toList "body-text".toList
      (by decide) (by decide) (by decide) (by decide) rfl).2.2 (by decide)⟩

/-! ## The acknowledgment -/

theorem buffer_kept (env : Env) (cmd0 args0 buffer : List Char)
    (h : strcmp_zero (process_command env cmd0 args0 buffer).cmd "PUT".toList = false) :
    (process_command env cmd0 args0 buffer).buffer = buffer := by
  rw [(process_command_scratch env cmd0 args0 buffer).1] at h
  unfold process_command
  simp only [h]
  repeat' split
  all_goals first | rfl | contradiction

/-- C7, at the record `"PUT out.txt body-text\n"` received from 10.0.0.1: the
PUT branch has overwritten the space after the path with a NUL (line 59), so the
buffer is no longer the record and the acknowledgment composed is
`"Processed command from 10.0.0.1: PUT out.txt"`, without the body. -/
theorem ack_of_put_is_cut :
    (handle_record writable_env sample_client [] [] "PUT out.txt body-text\n".toList).result.buffer
      ≠ "PUT out.txt body-text\n".toList ∧
    (handle_record writable_env sample_client [] [] "PUT out.txt body-text\n".toList).response
      = "Processed command from 10.0.0.1: PUT out.txt".toList ∧
    (handle_record writable_env sample_client [] [] "PUT out.txt body-text\n".toList).response
      ≠ ("Processed command from ".toList ++ inet_ntoa sample_client.address.sin_addr
          ++ ": ".toList ++ "PUT out.txt body-text\n".toList).take 255 := by
  decide

/-- The part of C7 that holds: when the keyword dispatched on is not `PUT`, the
acknowledgment composed is `"Processed command from "`, the peer address, `": "`
and the record as received (up to its first NUL, if it has one), cut to 255
characters. -/
theorem ack_echoes_record (env : Env) (client : ClientConnection)
    (cmd0 args0 record : List Char)
    (h : strcmp_zero (handle_record env client cmd0 args0 record).result.cmd "PUT".toList
      = false) :
    (handle_record env client cmd0 args0 record).response
      = ("Processed command from ".toList ++ inet_ntoa client.address.sin_addr ++ ": ".toList
          ++ cstr record).take 255 := by
  have hb : (handle_record env client cmd0 args0 record).result.buffer = record :=
    buffer_kept env cmd0 args0 record h
  show (ack_format _ (handle_record env client cmd0 args0 record).result.buffer).take 255 = _
  rw [hb]
  rfl

/-- C8, at a record of 300 bytes from 10.0.0.1: `response` holds 255 characters
but the byte count passed to `send` is 333, the length of the untruncated text,
which is more than the 256 bytes of `response`. -/
theorem send_length_exceeds_response :
    (handle_record empty_env sample_client [] [] (List.replicate 300 'A')).response.length = 255 ∧
    (handle_record empty_env sample_client [] [] (List.replicate 300 'A')).len = 333 ∧
    (256 : Int) < (handle_record empty_env sample_client [] [] (List.replicate 300 'A')).len := by
  set_option maxRecDepth 100000 in decide

/-! ## The scratch arrays of `process_command` -/

theorem scan_token_length (w : Nat) (s : List Char) : (scan_token w s).1.length ≤ w := by
  rw [scan_token_fst]
  exact List.length_take_le _ _

/-- The two arrays that `sscanf` fills are filled within their bounds: a keyword
that was stored has at most 255 characters and an argument that was stored has at
most 511. -/
theorem sscanf_within_bounds (buffer cmd0 args0 : List Char) :
    (1 ≤ (sscanf_cmd_args buffer cmd0 args0).2.2 →
      (sscanf_cmd_args buffer cmd0 args0).1.length ≤ 255) ∧
    ((sscanf_cmd_args buffer cmd0 args0).2.2 = 2 →
      (sscanf_cmd_args buffer cmd0 args0).2.1.length ≤ 511) := by
  unfold sscanf_cmd_args
  cases h1 : conv_s 255 (cstr buffer) with
  | none => simp
  | some r =>
    obtain ⟨c, rest⟩ := r
    have hc : c.length ≤ 255 := by
      unfold conv_s at h1
      split at h1
      · simp at h1
      · simp only [Option.some.injEq] at h1
        have := scan_token_length 255 (skip_space (cstr buffer))
        rename_i e
        rw [e, h1] at this
        exact this
    cases h2 : conv_s 511 (skip_space rest) with
    | none => simp [h2, hc]
    | some r2 =>
      obtain ⟨a, rest2⟩ := r2
      have ha : a.length ≤ 511 := by
        unfold conv_s at h2
        split at h2
        · simp at h2
        · simp only [Option.some.injEq] at h2
          have := scan_token_length 511 (skip_space (skip_space rest))
          rename_i e
          rw [e, h2] at this
          exact this
      simp [h2, hc, ha]

/-- C9, at the record `EXEC` followed by a 507-character argument: the argument
fits in `args[512]`, but the string that `sprintf` writes into `command[512]` has
512 characters and needs 513 bytes with its terminator. -/
theorem command_overflows :
    (process_command empty_env [] [] ("EXEC ".toList ++ List.replicate 507 'a')).args.length
      = 507 ∧
    (process_command empty_env [] [] ("EXEC ".toList ++ List.replicate 507 'a')).command.map
      (fun c => c.length + 1) = some 513 ∧
    (process_command empty_env [] [] ("EXEC ".toList ++ List.replicate 507 'a')).events
      = [Event.popen (List.replicate 507 'a' ++ " 2>&1".toList) false] := by
  set_option maxRecDepth 100000 in decide

/-! ## Records without a known keyword -/

theorem nul_not_mem_cstr (b : List Char) : NUL ∉ cstr b := by
  induction b with
  | nil => simp [cstr]
  | cons x xs ih =>
    by_cases h : x = NUL
    · simp [cstr, h]
    · simp only [cstr, h, if_false, List.mem_cons, not_or]
      exact ⟨fun e => h e.symm, ih⟩

theorem nul_not_mem_first_token (b : List Char) : NUL ∉ (first_token (cstr b)).take 255 := by
  intro h
  have h1 : NUL ∈ first_token (cstr b) := (List.take_sublist _ _).subset h
  have h2 : NUL ∈ (cstr b).dropWhile isspace := (List.takeWhile_sublist _).subset h1
  exact nul_not_mem_cstr b ((List.dropWhile_sublist _).subset h2)

theorem take_eq_short (tok kw : List Char) (hk : kw.length < 255) (h : tok.take 255 = kw) :
    tok = kw := by
  have hl : (tok.take 255).length = kw.length := by rw [h]
  rw [List.length_take] at hl
  have ht : tok.length ≤ 255 := by omega
  rw [List.take_of_length_le ht] at h
  exact h

/-- The part of C10 that holds: a record whose first white-space-delimited token
is none of `GET`, `PUT`, `EXEC` makes `process_command` call nothing, leave the
files and the buffer as they were and return 0. -/
theorem unknown_keyword_quiet (env : Env) (cmd0 args0 buffer : List Char)
    (h : first_token (cstr buffer) ≠ [])
    (hg : first_token (cstr buffer) ≠ "GET".toList)
    (hp : first_token (cstr buffer) ≠ "PUT".toList)
    (he : first_token (cstr buffer) ≠ "EXEC".toList) :
    (process_command env cmd0 args0 buffer).events = [] ∧
    (process_command env cmd0 args0 buffer).files = env.files ∧
    (process_command env cmd0 args0 buffer).buffer = buffer ∧
    (process_command env cmd0 args0 buffer).ret = 0 := by
  have hcmd := sscanf_cmd buffer cmd0 args0 h
  have hc : cstr ((first_token (cstr buffer)).take 255) = (first_token (cstr buffer)).take 255 :=
    cstr_of_not_mem _ (nul_not_mem_first_token buffer)
  have n1 : strcmp_zero (sscanf_cmd_args buffer cmd0 args0).1 "GET".toList = false := by
    rw [hcmd]
    unfold strcmp_zero
    rw [hc]
    have : cstr "GET".toList = "GET".toList := by decide
    rw [this]
    simp only [beq_eq_false_iff_ne, ne_eq]
    exact fun e => hg (take_eq_short _ _ (by decide) e)
  have n2 : strcmp_zero (sscanf_cmd_args buffer cmd0 args0).1 "PUT".toList = false := by
    rw [hcmd]
    unfold strcmp_zero
    rw [hc]
    have : cstr "PUT".toList = "PUT".toList := by decide
    rw [this]
    simp only [beq_eq_false_iff_ne, ne_eq]
    exact fun e => hp (take_eq_short _ _ (by decide) e)
  have n3 : strcmp_zero (sscanf_cmd_args buffer cmd0 args0).1 "EXEC".toList = false := by
    rw [hcmd]
    unfold strcmp_zero
    rw [hc]
    have : cstr "EXEC".toList = "EXEC".toList := by decide
    rw [this]
    simp only [beq_eq_false_iff_ne, ne_eq]
    exact fun e => he (take_eq_short _ _ (by decide) e)
  simp only [process_command, n1, n2, n3, Bool.false_eq_true, if_false, and_self]

/-- C10, at the record `"\n"` when the arrays `cmd` and `args` still hold `GET` and
`/etc/passwd`: `sscanf` stores nothing, the stale keyword is dispatched on, the
file is opened and its content printed. -/
theorem blank_record_dispatches_stale_keyword :
    (sscanf_cmd_args "\n".toList "GET".toList "/etc/passwd".toList).2.2 = -1 ∧
    (process_command passwd_env "GET".toList "/etc/passwd".toList "\n".toList).events
      = [Event.fopen "/etc/passwd".toList "r".toList true,
          Event.printf "Sending: root:x:0:0\n".toList,
          Event.fclose "/etc/passwd".toList] ∧
    (process_command passwd_env "GET".toList "/etc/passwd".toList "\n".toList).ret = 0 := by
  decide

/-! ## The lock -/

/-- Running the statements of `teardown_actions` gives the table of
`worker_teardown`. -/
theorem teardown_actions_state (s : ServerState) (client_id : Nat) :
    (teardown_actions s client_id).foldl apply_action s = (worker_teardown s client_id).1 := by
  rfl

/-- Running the statements of `accept_actions` gives the table of `accept_step`. -/
theorem accept_actions_state (s : ServerState) (client_fd : Int) (client_addr : sockaddr_in) :
    (accept_actions s client_fd client_addr).foldl apply_action s
      = (accept_step s client_fd client_addr).state := by
  unfold accept_actions accept_step
  by_cases h : find_free_slot s.clients = -1
  · simp [h, apply_action]
  · simp [h, apply_action, Function.update_idem]

/-- The accept thread writes the table only between `pthread_mutex_lock` and
`pthread_mutex_unlock`. -/
theorem accept_writes_under_lock (s : ServerState) (client_fd : Int)
    (client_addr : sockaddr_in) :
    writes_under_lock false (accept_actions s client_fd client_addr) = true := by
  unfold accept_actions
  by_cases h : find_free_slot s.clients = -1
  · simp [h, writes_under_lock, writes_table]
  · simp [h, writes_under_lock, writes_table]

/-- C11, at the teardown of any worker: `client->active = 0` (line 111) is the
second statement of the teardown and runs before `pthread_mutex_lock` (line 113),
so the worker writes the `active` field of its slot without holding the lock. -/
theorem teardown_writes_active_without_lock (s : ServerState) (client_id : Nat) :
    writes_under_lock false (teardown_actions s client_id) = false ∧
    (teardown_actions s client_id).take 3
      = [Action.close (s.clients client_id).socket_fd, Action.write_active client_id 0,
          Action.lock] ∧
    writes_under_lock false ((teardown_actions s client_id).drop 2) = true := by
  refine ⟨?_, rfl, ?_⟩
  · simp [teardown_actions, writes_under_lock, writes_table]
  · simp [teardown_actions, writes_under_lock, writes_table]

/-! ## The worker's life -/

theorem failed_write_open (env : Env) (cmd0 args0 buffer : List Char) (name : List Char)
    (ok : Bool)
    (hmem : Event.fopen name "w".toList ok ∈ (process_command env cmd0 args0 buffer).events)
    (hw : env.writable name = false) :
    (process_command env cmd0 args0 buffer).events = [Event.fopen name "w".toList false] ∧
    (process_command env cmd0 args0 buffer).files = env.files := by
  revert hmem hw
  unfold process_command
  simp only []
  repeat' split
  all_goals intro hmem hw
  all_goals simp at hmem
  all_goals simp_all

/-- C13 as stated fails: for the record `"EXEC nosuch\n"`, where the shell cannot
start the command, `popen` succeeds and the shell's complaint, merged into the
pipe by `2>&1`, is read and printed as `"Result: sh: 1: nosuch: not found\n"`:
output is captured. -/
theorem exec_not_found_is_printed :
    (process_command sh_env [] [] "EXEC nosuch\n".toList).events
      = [Event.popen "nosuch 2>&1".toList true,
          Event.printf "Result: sh: 1: nosuch: not found\n".toList,
          Event.pclose "nosuch 2>&1".toList] ∧
    (process_command sh_env [] [] "EXEC nosuch\n".toList).events
      ≠ [Event.popen "nosuch 2>&1".toList false] ∧
    (process_command sh_env [] [] "EXEC nosuch\n".toList).ret = 0 := by
  decide

/-- C13, amended: for every record whose processing stays within the scratch
arrays, `process_command` returns 0.  When the GET path cannot be opened the only
call is the failed `fopen` and nothing is printed.  When the PUT destination
cannot be opened the only call is the failed `fopen`, nothing is written and the
files are as before.  For EXEC, whatever arrives on the pipe is printed line by
line, the shell's complaint about a command it cannot start included; only when
`popen` itself fails is nothing read.  The caller gets 0 in every case. -/
theorem dispatch_failures (env : Env) (cmd0 args0 buffer : List Char)
    (_hfit : fits_scratch (process_command env cmd0 args0 buffer) = true) :
    (process_command env cmd0 args0 buffer).ret = 0 ∧
    (strcmp_zero (process_command env cmd0 args0 buffer).cmd "GET".toList = true →
      env.files (cstr (process_command env cmd0 args0 buffer).args) = none →
      (process_command env cmd0 args0 buffer).events
        = [Event.fopen (cstr (process_command env cmd0 args0 buffer).args) "r".toList false] ∧
      (process_command env cmd0 args0 buffer).files = env.files) ∧
    (∀ name ok,
      Event.fopen name "w".toList ok ∈ (process_command env cmd0 args0 buffer).events →
      env.writable name = false →
      (process_command env cmd0 args0 buffer).events = [Event.fopen name "w".toList false] ∧
      (process_command env cmd0 args0 buffer).files = env.files) ∧
    (strcmp_zero (process_command env cmd0 args0 buffer).cmd "GET".toList = false →
      strcmp_zero (process_command env cmd0 args0 buffer).cmd "PUT".toList = false →
      strcmp_zero (process_command env cmd0 args0 buffer).cmd "EXEC".toList = true →
      (env.shell (cstr (process_command env cmd0 args0 buffer).args ++ " 2>&1".toList) = none →
        (process_command env cmd0 args0 buffer).events
          = [Event.popen (cstr (process_command env cmd0 args0 buffer).args ++ " 2>&1".toList)
              false] ∧
        (process_command env cmd0 args0 buffer).files = env.files) ∧
      (∀ output,
        env.shell (cstr (process_command env cmd0 args0 buffer).args ++ " 2>&1".toList)
          = some output →
        (process_command env cmd0 args0 buffer).events
          = [Event.popen (cstr (process_command env cmd0 args0 buffer).args ++ " 2>&1".toList)
              true]
            ++ (print_lines "Result: ".toList 1024 output).map Event.printf
            ++ [Event.pclose
                (cstr (process_command env cmd0 args0 buffer).args ++ " 2>&1".toList)] ∧
        (process_command env cmd0 args0 buffer).files = env.files)) := by
  obtain ⟨hc, ha, hr⟩ := process_command_scratch env cmd0 args0 buffer
  refine ⟨hr, ?_, ?_, ?_⟩
  · rw [hc, ha]
    intro hget hnone
    simp only [process_command, hget, if_true, hnone, and_self]
  · intro name ok hmem hw
    exact failed_write_open env cmd0 args0 buffer name ok hmem hw
  · rw [hc, ha]
    intro hget hput hexec
    refine ⟨?_, ?_⟩
    · intro hnone
      simp only [process_command, hget, hput, hexec, hnone, Bool.false_eq_true, if_false,
        if_true, and_self]
    · intro output hsome
      simp only [process_command, hget, hput, hexec, hsome, Bool.false_eq_true, if_false,
        if_true, and_self]

/-- C13 (amended) at a GET and a PUT where nothing can be opened, and at an EXEC
of a command the shell cannot start. -/
theorem dispatch_failures_witness :
    fits_scratch (process_command empty_env [] [] "GET /tmp/x\n".toList) = true ∧
    strcmp_zero (process_command empty_env [] [] "GET /tmp/x\n".toList).cmd "GET".toList = true ∧
    empty_env.files (cstr (process_command empty_env [] [] "GET /tmp/x\n".toList).args) = none ∧
    (process_command empty_env [] [] "GET /tmp/x\n".toList).events
      = [Event.fopen (cstr (process_command empty_env [] [] "GET /tmp/x\n".toList).args)
          "r".toList false] ∧
    fits_scratch (process_command empty_env [] [] "PUT out.txt body-text\n".toList) = true ∧
    Event.fopen "out.txt".toList "w".toList false
      ∈ (process_command empty_env [] [] "PUT out.txt body-text\n".toList).events ∧
    empty_env.writable "out.txt".toList = false ∧
    (process_command empty_env [] [] "PUT out.txt body-text\n".toList).events
      = [Event.fopen "out.txt".toList "w".toList false] ∧
    (process_command empty_env [] [] "PUT out.txt body-text\n".toList).files = empty_env.files ∧
    fits_scratch (process_command sh_env [] [] "EXEC nosuch\n".toList) = true ∧
    sh_env.shell (cstr (process_command sh_env [] [] "EXEC nosuch\n".toList).args
      ++ " 2>&1".toList) = some "sh: 1: nosuch: not found\n".toList ∧
    (process_command sh_env [] [] "EXEC nosuch\n".toList).events
      = [Event.popen (cstr (process_command sh_env [] [] "EXEC nosuch\n".toList).args
          ++ " 2>&1".toList) true]
        ++ (print_lines "Result: ".toList 1024 "sh: 1: nosuch: not found\n".toList).map
          Event.printf
        ++ [Event.pclose (cstr (process_command sh_env [] [] "EXEC nosuch\n".toList).args
          ++ " 2>&1".toList)] ∧
    (process_command sh_env [] [] "EXEC nosuch\n".toList).ret = 0 :=
  ⟨by decide, by decide, rfl,
    ((dispatch_failures empty_env [] [] "GET /tmp/x\n".toList (by decide)).2.1
      (by decide) rfl).1,
    by decide, by decide, rfl,
    ((dispatch_failures empty_env [] [] "PUT out.txt body-text\n".toList (by decide)).2.2.1
      "out.txt".toList false (by decide) rfl).1,
    ((dispatch_failures empty_env [] [] "PUT out.txt body-text\n".toList (by decide)).2.2.1
      "out.txt".toList false (by decide) rfl).2,
    by decide, by decide,
    (((dispatch_failures sh_env [] [] "EXEC nosuch\n".toList (by decide)).2.2.2
      (by decide) (by decide) (by decide)).2 "sh: 1: nosuch: not found\n".toList
        (by decide)).1,
    (dispatch_failures sh_env [] [] "EXEC nosuch\n".toList (by decide)).1⟩

/-! ## The path of a PUT record -/

theorem cstr_append (a b : List Char) (h : NUL ∉ a) : cstr (a ++ b) = a ++ cstr b := by
  induction a with
  | nil => rfl
  | cons x xs ih =>
    simp only [List.mem_cons, not_or] at h
    have hn : ¬ x = NUL := fun e => h.1 e.symm
    simp [cstr, hn, ih h.2]

/-- The part of C14 that holds: in a record `PUT`, one space, a path `p` without
white space, one space and a rest, the second white-space-delimited token is `p`
and `p` is the file that the PUT branch opens for writing. -/
theorem put_path_canonical (env : Env) (cmd0 args0 p rest : List Char) (hp : p ≠ [])
    (hsp : ∀ c ∈ p, isspace c = false) (hnul : NUL ∉ p) :
    second_token (cstr ("PUT ".toList ++ p ++ " ".toList ++ rest)) = p ∧
    ∃ ok, (process_command env cmd0 args0 ("PUT ".toList ++ p ++ " ".toList ++ rest)).events.head?
      = some (Event.fopen p "w".toList ok) := by
  have e : "PUT ".toList ++ p ++ " ".toList ++ rest
      = "PUT".toList ++ ' ' :: (p ++ ' ' :: rest) := by
    simp
  have hspace : ' ' ∉ p := by
    intro hm
    have := hsp ' ' hm
    revert this
    decide
  refine ⟨?_, ?_⟩
  · have hn : NUL ∉ "PUT ".toList ++ p ++ " ".toList := by
      intro hm
      simp only [List.mem_append] at hm
      rcases hm with (h | h) | h
      · revert h
        decide
      · exact hnul h
      · revert h
        decide
    rw [cstr_append _ _ hn]
    obtain ⟨c, cs, rfl⟩ := List.exists_cons_of_ne_nil hp
    have hc : isspace c = false := hsp c (List.mem_cons_self c cs)
    have hcs : ∀ a ∈ c :: cs, (!isspace a) = true := by
      intro a ha
      simp [hsp a ha]
    have s1 : isspace 'P' = false := by decide
    have s2 : isspace 'U' = false := by decide
    have s3 : isspace 'T' = false := by decide
    have s4 : isspace ' ' = true := by decide
    have ht : List.takeWhile (fun a => !isspace a) ((c :: cs) ++ (' ' :: cstr rest))
        = c :: cs := by
      rw [List.takeWhile_append_of_pos hcs]
      simp [List.takeWhile, s4]
    simp only [second_token, after_first_token, first_token]
    have e2 : "PUT ".toList ++ (c :: cs) ++ " ".toList ++ cstr rest
        = 'P' :: 'U' :: 'T' :: ' ' :: ((c :: cs) ++ (' ' :: cstr rest)) := by
      simp
    rw [e2]
    simp only [List.dropWhile, s1, s2, s3, s4, Bool.not_false, Bool.not_true, List.cons_append,
      hc]
    have := ht
    simp only [List.cons_append] at this
    exact this
  · rw [e]
    have hcmd : (sscanf_cmd_args ("PUT".toList ++ ' ' :: (p ++ ' ' :: rest)) cmd0 args0).1
        = "PUT".toList := sscanf_put _ cmd0 args0
    obtain ⟨_, h2, h3⟩ := put_dispatch env cmd0 args0 "PUT".toList p rest hcmd
      (by decide) (by decide) hspace hnul
    cases hw : env.writable p with
    | true => exact ⟨true, by rw [(h2 hw).1]; rfl⟩
    | false => exact ⟨false, by rw [(h3 hw).1]; rfl⟩

/-- C14, at three records whose keyword is `PUT` and whose second token is
`a.txt`: with a leading space the file opened is `PUT`, with a tab between the
keyword and the path it is `hello`, with two spaces between them it has the
empty name.  `process_command` finds the keyword with `sscanf`, which skips any
white space, and the path with `strchr(buffer, ' ')`, which looks for single
spaces from the start of the buffer. -/
theorem put_path_is_not_second_token :
    first_token (cstr " PUT a.txt hello\n".toList) = "PUT".toList ∧
    second_token (cstr " PUT a.txt hello\n".toList) = "a.txt".toList ∧
    (process_command writable_env [] [] " PUT a.txt hello\n".toList).events
      = [Event.fopen "PUT".toList "w".toList true,
          Event.fwrite "PUT".toList "a.txt hello\n".toList, Event.fclose "PUT".toList] ∧
    first_token (cstr "PUT\ta.txt hello world\n".toList) = "PUT".toList ∧
    second_token (cstr "PUT\ta.txt hello world\n".toList) = "a.txt".toList ∧
    (process_command writable_env [] [] "PUT\ta.txt hello world\n".toList).events
      = [Event.fopen "hello".toList "w".toList true,
          Event.fwrite "hello".toList "world\n".toList, Event.fclose "hello".toList] ∧
    first_token (cstr "PUT  a.txt hello\n".toList) = "PUT".toList ∧
    second_token (cstr "PUT  a.txt hello\n".toList) = "a.txt".toList ∧
    (process_command writable_env [] [] "PUT  a.txt hello\n".toList).events
      = [Event.fopen [] "w".toList true, Event.fwrite [] "a.txt hello\n".toList,
          Event.fclose []] := by
  decide

/-! ## What the dispatch depends on -/

theorem sscanf_two_stored (buffer c1 a1 c2 a2 : List Char)
    (h : (sscanf_cmd_args buffer c1 a1).2.2 = 2) :
    sscanf_cmd_args buffer c1 a1 = sscanf_cmd_args buffer c2 a2 := by
  unfold sscanf_cmd_args at h ⊢
  cases h1 : conv_s 255 (cstr buffer) with
  | none => simp [h1] at h
  | some r =>
    obtain ⟨c, rest⟩ := r
    simp only [h1] at h ⊢
    cases h2 : conv_s 511 (skip_space rest) with
    | none => simp [h2] at h
    | some r2 => rfl

/-- The part of C15 that holds: when `sscanf` stores both the keyword and the
argument (the record has two tokens), what `process_command` does is the same
whatever the arrays `cmd` and `args` held before. -/
theorem two_token_record_is_deterministic (env : Env) (buffer c1 a1 c2 a2 : List Char)
    (h : (sscanf_cmd_args buffer c1 a1).2.2 = 2) :
    process_command env c1 a1 buffer = process_command env c2 a2 buffer := by
  unfold process_command
  rw [sscanf_two_stored buffer c1 a1 c2 a2 h]

/-- C15, at the records `"GET\n"` and `"EXEC\n"`: `sscanf` stores the keyword and
returns 1 without storing an argument, and the path opened or the command line
run is whatever the array `args` held before the call.  Two calls on the same
record open different paths (`/etc/passwd`, `/tmp/x`) and run different command
lines (`id 2>&1`, `ls 2>&1`). -/
theorem lone_keyword_uses_stale_args :
    (sscanf_cmd_args "GET\n".toList [] "/etc/passwd".toList).2.2 = 1 ∧
    (process_command passwd_env [] "/etc/passwd".toList "GET\n".toList).events
      = [Event.fopen "/etc/passwd".toList "r".toList true,
          Event.printf "Sending: root:x:0:0\n".toList,
          Event.fclose "/etc/passwd".toList] ∧
    (process_command passwd_env [] "/tmp/x".toList "GET\n".toList).events
      = [Event.fopen "/tmp/x".toList "r".toList false] ∧
    (process_command empty_env [] "id".toList "EXEC\n".toList).events
      = [Event.popen "id 2>&1".toList false] ∧
    (process_command empty_env [] "ls".toList "EXEC\n".toList).events
      = [Event.popen "ls 2>&1".toList false] := by
  decide

/-! ## The print loops run to the end of their stream -/

theorem fgets_line_pos (n : Nat) (c : Char) (cs : List Char) :
    0 < (fgets_line (n + 1) (c :: cs)).length := by
  unfold fgets_line
  split <;> simp

theorem print_loop_fuel (label : List Char) (size : Nat) (hsize : 2 ≤ size) (f1 f2 : Nat)
    (stream : List Char) (h1 : stream.length ≤ f1) (h2 : stream.length ≤ f2) :
    print_loop label size f1 stream = print_loop label size f2 stream := by
  induction f1 generalizing f2 stream with
  | zero =>
    have hs : stream = [] := List.length_eq_zero.mp (by omega)
    subst hs
    cases f2 <;> rfl
  | succ f1 ih =>
    cases stream with
    | nil => cases f2 <;> rfl
    | cons c cs =>
      cases f2 with
      | zero => simp at h2
      | succ f2 =>
        obtain ⟨n, hn⟩ : ∃ n, size - 1 = n + 1 := ⟨size - 2, by omega⟩
        have hpos := fgets_line_pos n c cs
        simp only [List.length_cons] at h1 h2
        simp only [print_loop, fgets, hn]
        congr 1
        apply ih
        · simp only [List.length_drop, List.length_cons]
          omega
        · simp only [List.length_drop, List.length_cons]
          omega

/-- The fuel of `print_lines` is enough: with a buffer of at least 2 bytes any
larger bound on the number of iterations gives the same texts, so the loop has
reached the end of the stream. -/
theorem print_lines_complete (label : List Char) (size : Nat) (hsize : 2 ≤ size) (fuel : Nat)
    (stream : List Char) (h : stream.length ≤ fuel) :
    print_loop label size fuel stream = print_lines label size stream :=
  print_loop_fuel label size hsize fuel stream.length stream h (le_refl _)


/-! ## The argument of GET and EXEC -/

end B12
